import Mathlib

set_option maxHeartbeats 1000000

namespace FileToHtml

/-! Shallow embedding of the archive-construction core of the file_to_html
repository: src/file.rs (selection), src/zip.rs (archive encoding),
src/convert.rs (orchestration), src/utils.rs (naming, password policy),
src/config.rs and src/cli.rs (configuration validation).  Byte buffers are
lists of naturals, filesystem paths are lists of components, and produced
ZIP buffers are kept symbolic as trees of named members instead of
serialized bytes.  Randomness, the local clock and interactive input are
passed in as explicit parameters. -/

/- ===== pattern matching (utils.rs create_regex_sets + regex::RegexSet) ===== -/

/-- Wildcard matching: utils.rs create_regex_sets turns each user pattern into
a regex by escaping every dot and turning every `*` into `.*`, and
`RegexSet::is_match` performs an unanchored search.  A pattern is modelled as a
list of characters in which `*` is the any-sequence wildcard and every other
character is literal.  `matchHere p s` decides whether `p` matches some prefix
of `s`. -/
def matchHere : List Char → List Char → Bool
  | [], _ => true
  | '*' :: ps, s => (s.tails).any fun t => matchHere ps t
  | _ :: _, [] => false
  | c :: ps, x :: xs => c == x && matchHere ps xs

/-- Unanchored search, as performed by `Regex::is_match`: the pattern may match
starting at any position of the subject. -/
def search (p : List Char) (s : List Char) : Bool :=
  (s.tails).any fun t => matchHere p t

/-- Model of `RegexSet::is_match`: true when at least one pattern of the set
matches the subject string. -/
def regexSetMatch (pats : List (List Char)) (s : String) : Bool :=
  pats.any fun p => search p s.toList

/- ===== paths ===== -/

/-- Joining path components with `/`, modelling `to_string_lossy()` after the
backslash-to-slash replacement done in zip.rs line 57. -/
def joinComponents : List String → String
  | [] => ("")
  | [c] => c
  | c :: rest => c ++ ("/") ++ joinComponents rest

/-- Model of `Path::parent().unwrap_or(input_path)` on a component list:
dropping the last component, except that an empty path is its own parent. -/
def parent_or_self (p : List String) : List String :=
  if p.isEmpty then p else p.dropLast

/-- Length of the longest common leading component run of two paths, used by
the pathdiff algorithm. -/
def commonLen : List String → List String → Nat
  | x :: xs, y :: ys => if x = y then commonLen xs ys + 1 else 0
  | _, _ => 0

/-- Model of `pathdiff::diff_paths path base`: strip the common leading
components, emit one `..` per remaining base component, then the rest of the
path. -/
def diff_paths (path base : List String) : List String :=
  List.replicate (base.length - commonLen path base) ("..") ++ path.drop (commonLen path base)

/-- Model of `trim_start_matches("./")`: repeatedly remove a leading dot-slash
pair, as in zip.rs line 58. -/
def trimDotSlash : List Char → List Char
  | '.' :: '/' :: rest => trimDotSlash rest
  | s => s

/-- Path-within-archive computed by `ZipCompressor::compress_files`
(zip.rs lines 53-59): relativize against the parent of the input path,
join with `/`, and trim a leading `./`. -/
def relative_path_str (filePath inputPath : List String) : String :=
  String.mk (trimDotSlash (joinComponents (diff_paths filePath (parent_or_self inputPath))).data)

/- ===== file selection (file.rs) ===== -/

/-- Model of `is_file_valid` (file.rs lines 17-35).  The metadata read that the
source performs lazily (only when a size cap is configured) is passed in as an
`Except`; sizes are compared in megabytes over the rationals, mirroring the
exact f64 arithmetic `len as f64 / 1_048_576.0 > max` (exact for every
realistic file size, since division by a power of two is exact). -/
def is_file_valid (path : String) (include_set exclude_set : List (List Char))
    (metadata : Except String Nat) (max_size : Option ℚ) : Except String Bool :=
  if !(regexSetMatch include_set path) || regexSetMatch exclude_set path then
    Except.ok false
  else
    match max_size with
    | some maxv =>
      match metadata with
      | Except.error e => Except.error e
      | Except.ok len =>
        if ((len : ℚ) / 1048576) > maxv then Except.ok false else Except.ok true
    | none => Except.ok true

/-- One entry of the jwalk traversal stream, in the order the traversal yields
it: path components, whether it is a regular file, and its metadata size. -/
structure WalkEntry where
  components : List String
  isFile : Bool
  size : Nat
deriving DecidableEq, Repr

/-- String form of an entry path as matched against the regex sets. -/
def entryPath (e : WalkEntry) : String := joinComponents e.components

/-- Model of `filter_entry` (file.rs lines 38-52): an entry survives the walk
filter when its path matches no exclude pattern. -/
def filter_entry (exclude_set : List (List Char)) (e : WalkEntry) : Bool :=
  !(regexSetMatch exclude_set (entryPath e))

/-- Eligibility map applied per batch in `collect_and_measure_files`
(file.rs lines 108-128): a valid file contributes its path and, when sizes are
being measured, its size; an invalid file or a failed check contributes
nothing. -/
def eligible_entry (include_set exclude_set : List (List Char)) (max_size : Option ℚ)
    (measure_size : Bool) (e : WalkEntry) : Option (List String × Nat) :=
  match is_file_valid (entryPath e) include_set exclude_set (Except.ok e.size) max_size with
  | Except.ok true => some (e.components, if measure_size then e.size else 0)
  | _ => none

/-- Splitting a list into consecutive chunks of size n, modelling
`entries.chunks(batch_size)` in file.rs line 107. -/
def chunksOf (n : Nat) (l : List α) : List (List α) :=
  if h : l.isEmpty ∨ n = 0 then [] else l.take n :: chunksOf n (l.drop n)
termination_by l.length
decreasing_by
  push_neg at h
  have hl : l ≠ [] := by simpa using h.1
  have hpos : 0 < l.length := List.length_pos.mpr hl
  simp only [List.length_drop]
  omega

/-- Model of `FileCollector::collect_and_measure_files` (file.rs lines 84-164):
drop excluded entries, keep regular files, process the stream in batches of
1000 through the parallel eligibility filter (rayon preserves source order in
`collect`), concatenate the batches, and fail when no file qualifies. -/
def collect_and_measure_files (entries : List WalkEntry)
    (include_set exclude_set : List (List Char)) (max_size : Option ℚ)
    (measure_size : Bool) : Except String (List (List String) × Nat) :=
  let stream := (entries.filter (filter_entry exclude_set)).filter fun e => e.isFile
  let results := ((chunksOf 1000 stream).map fun chunk =>
    chunk.filterMap (eligible_entry include_set exclude_set max_size measure_size)).flatten
  if (results.map Prod.fst).isEmpty then Except.error ("無有效檔案可壓縮")
  else Except.ok (results.map Prod.fst, (results.map Prod.snd).sum)

/- ===== archive model (zip.rs) ===== -/

/-- AES key length selector, from `zip::AesMode` as used in the repo. -/
inductive AesMode where
  | aes128
  | aes192
  | aes256
deriving DecidableEq, Repr

/-- ZIP compression method, from `zip::CompressionMethod` as used in the
repo (only Stored and Deflated occur). -/
inductive Method where
  | stored
  | deflated
deriving DecidableEq, Repr

/-- Produced buffer, kept symbolic: raw bytes, or a ZIP archive given by its
list of members.  A member is its name in the archive, its content, its
optional AES encryption (password and key length), and its compression
method. -/
inductive Data where
  | raw : List Nat → Data
  | zip : List (String × Data × Option (String × AesMode) × Method) → Data

/-- One ZIP member: name, content, optional (password, key length), method. -/
abbrev Member := String × Data × Option (String × AesMode) × Method

mutual
/-- All members of a buffer, at every nesting depth. -/
def allMembers : Data → List Member
  | Data.raw _ => []
  | Data.zip ms => allMembersList ms
/-- All members reachable from a member list, the members themselves
included. -/
def allMembersList : List Member → List Member
  | [] => []
  | (n, d, enc, mth) :: rest => (n, d, enc, mth) :: (allMembers d ++ allMembersList rest)
end

/-- Modelled from the spec: the tool never reads archives back, so extraction
is not in the repository.  Standard ZIP AES extraction of one member succeeds
exactly when the supplied password matches the password the member was
encrypted with; an unencrypted member needs no password. -/
def extract_member (attempt : Option String) (m : Member) : Option Data :=
  match m with
  | (_, d, none, _) => some d
  | (_, d, some (pwd, _), _) => if attempt = some pwd then some d else none

/-- The (name-in-archive, source path) pairs collected at the top of
`ZipCompressor::compress_files` (zip.rs lines 51-62). -/
def file_entries (files : List (List String)) (inputPath : List String) :
    List (String × List String) :=
  files.map fun f => (relative_path_str f inputPath, f)

/-- Model of `ZipCompressor::compress_files` (zip.rs lines 45-106): one member
per collected entry; when a password is present the configured options are
replaced by Stored plus AES encryption with that password, otherwise the
configured options are used as is.  File contents are supplied by `content`. -/
def compress_files (files : List (List String)) (inputPath : List String)
    (content : List String → List Nat) (options : Method)
    (password : Option String) (aes : AesMode) : Data :=
  Data.zip ((file_entries files inputPath).map fun e =>
    (e.1, Data.raw (content e.2), password.map fun pwd => (pwd, aes),
      if password.isSome then Method.stored else options))

/-- Model of `create_inner_zip` (zip.rs lines 110-120). -/
def create_inner_zip (inputPath : List String) (files : List (List String))
    (content : List String → List Nat) (options : Method)
    (password : Option String) (aes : AesMode) : Data :=
  compress_files files inputPath content options password aes

/-- Model of `create_zip_buffer` (zip.rs lines 123-130): a single unencrypted
member holding the given bytes. -/
def create_zip_buffer (file_name : String) (data : List Nat) (options : Method) : Data :=
  Data.zip [(file_name, Data.raw data, none, options)]

/-- Model of `compress_file_content` (zip.rs lines 132-154): one member, always
Stored, AES-encrypted exactly when a password is present; the
compression_level argument is accepted and ignored, as in the source. -/
def compress_file_content (data : List Nat) (file_name : String)
    (compression_level : String) (password : Option String) (aes : AesMode) : Data :=
  Data.zip [(file_name, Data.raw data, password.map fun pwd => (pwd, aes), Method.stored)]

/-- Model of `create_zip` (zip.rs lines 156-206): for the double layer, wrap
the given bytes as the sole member named file_name plus the outer suffix; for
the single layer, as the sole member named file_name plus the zip suffix; in
both cases Stored, encrypted exactly when a password is present.  Any other
layer value passes the bytes through unchanged. -/
def create_zip (data : Data) (file_name : String) (layer : String)
    (password : Option String) (aes : AesMode) : Data :=
  if layer = ("double") then
    Data.zip [(file_name ++ ("_outer.zip"), data, password.map fun pwd => (pwd, aes), Method.stored)]
  else if layer = ("single") then
    Data.zip [(file_name ++ (".zip"), data, password.map fun pwd => (pwd, aes), Method.stored)]
  else data

/- ===== naming and password policy (utils.rs) ===== -/

/-- Model of `get_file_name` (utils.rs lines 133-144): the base name is the
final path component (or a fallback when there is none); the download name is
derived from the base name by the layer plan, every layer value other than
none and single falling into the outer-suffix arm, as in the source match. -/
def get_file_name (path : List String) (layer : String) : String × String :=
  let file_name := (path.getLast?).getD ("archive")
  (file_name,
    if layer = ("none") then file_name
    else if layer = ("single") then file_name ++ (".zip")
    else file_name ++ ("_outer.zip"))

/-- Password mode selector, from config.rs lines 48-54. -/
inductive PasswordMode where
  | random
  | manual
  | timestamp
  | none
deriving DecidableEq, Repr

/-- The 62 characters of `rand::distr::Alphanumeric`, in its sampling order. -/
def alphanumeric_chars : List Char :=
  ("ABCDEFGHIJKLMNOPQRSTUVWXYZabcdefghijklmnopqrstuvwxyz0123456789").toList

theorem alphanumeric_chars_length : alphanumeric_chars.length = 62 := rfl

/-- Model of `generate_random_password` (utils.rs lines 155-161): the PRNG is
an explicit stream of draws uniform over the 62 alphanumeric characters. -/
def generate_random_password (length : Nat) (rng : Nat → Fin 62) : String :=
  String.mk ((List.range length).map fun k =>
    alphanumeric_chars.get (Fin.cast alphanumeric_chars_length.symm (rng k)))

/-- Local wall-clock time, the input of the Timestamp password mode. -/
structure LocalTime where
  year : Nat
  month : Nat
  day : Nat
  hour : Nat
  minute : Nat
  second : Nat
deriving DecidableEq, Repr

/-- Decimal digit character of the last decimal digit of n. -/
def digitChar (n : Nat) : Char := Char.ofNat (48 + n % 10)

/-- Two zero-padded decimal digits, faithful to a chrono two-digit field for
values below 100. -/
def pad2 (n : Nat) : List Char := [digitChar (n / 10), digitChar n]

/-- Four zero-padded decimal digits, faithful to chrono year formatting for
values below 10000. -/
def pad4 (n : Nat) : List Char :=
  [digitChar (n / 1000), digitChar (n / 100), digitChar (n / 10), digitChar n]

/-- Model of the chrono format string of utils.rs line 192: year, month, day,
hour, minute, second, each zero-padded decimal. -/
def format_timestamp (t : LocalTime) : String :=
  String.mk (pad4 t.year ++ pad2 t.month ++ pad2 t.day ++
    pad2 t.hour ++ pad2 t.minute ++ pad2 t.second)

/-- Model of `generate_password` (utils.rs lines 163-201).  The interactive
double entry of Manual mode is supplied as the `manual` pair; the PRNG and the
clock are explicit parameters. -/
def generate_password (mode : PasswordMode) (preset : Option String)
    (rng : Nat → Fin 62) (manual : String × String) (now : LocalTime) :
    Except String (Option String) :=
  match mode with
  | PasswordMode.random => Except.ok (some (generate_random_password 16 rng))
  | PasswordMode.manual =>
    match preset with
    | some pwd => Except.ok (some pwd)
    | none =>
      if manual.1 ≠ manual.2 then Except.error ("密碼不匹配")
      else Except.ok (some manual.1)
  | PasswordMode.timestamp => Except.ok (some (format_timestamp now))
  | PasswordMode.none => Except.ok none

/- ===== conversion pipeline (convert.rs) ===== -/

/-- Model of `compress_single_file` (convert.rs lines 72-118), the per-file
mode archive construction. -/
def compress_single_file (data : List Nat) (file_name : String) (compress : Bool)
    (compression_level : String) (password : Option String) (aes : AesMode)
    (layer : String) : Data :=
  if layer = ("single") then
    match password with
    | some pwd => Data.zip [(file_name, Data.raw data, some (pwd, aes), Method.stored)]
    | none => if compress then create_zip_buffer file_name data Method.stored else Data.raw data
  else
    create_zip
      (if compress ∧ layer ≠ ("none") then
        compress_file_content data file_name compression_level password aes
      else Data.raw data)
      file_name layer password aes

/-- Model of `finalize_compression` (convert.rs lines 241-286): in double-layer
mode wrap the inner buffer once more via create_zip, otherwise hand the buffer
through; also computes the download name. -/
def finalize_compression (inputPath : List String) (zip_buffer : Data)
    (layer : String) (password : Option String) (aes : AesMode) : Data × String :=
  let fn := get_file_name inputPath layer
  (if layer = ("double") then create_zip zip_buffer fn.1 layer password aes else zip_buffer,
    fn.2)

/-- Archive construction of `process_compressed` (convert.rs lines 288-348)
after file collection and password resolution: inner archive over the
collected files with Stored options (convert.rs line 303), then
finalize_compression.  The compression_level argument is accepted and ignored,
as in the source. -/
def process_compressed_archive (files : List (List String)) (inputPath : List String)
    (content : List String → List Nat) (compression_level : String)
    (layer : String) (password : Option String) (aes : AesMode) : Data :=
  let options := Method.stored
  let inner := create_inner_zip inputPath files content options password aes
  (finalize_compression inputPath inner layer password aes).1

/-- Model of the whole of `process_compressed` (convert.rs lines 288-348):
collect and measure, resolve the password, build the layered archive. -/
def process_compressed_run (entries : List WalkEntry)
    (include_set exclude_set : List (List Char)) (max_size : Option ℚ)
    (mode : PasswordMode) (preset : Option String) (rng : Nat → Fin 62)
    (manual : String × String) (now : LocalTime) (inputPath : List String)
    (content : List String → List Nat) (compression_level : String)
    (layer : String) (aes : AesMode) : Except String Data :=
  match collect_and_measure_files entries include_set exclude_set max_size true with
  | Except.error e => Except.error e
  | Except.ok (files, _total) =>
    match generate_password mode preset rng manual now with
    | Except.error e => Except.error e
    | Except.ok password =>
      Except.ok (process_compressed_archive files inputPath content compression_level layer password aes)

/-- The per-file loop body outcome trace of `process_individual`
(convert.rs lines 216-233): each collected file is converted in order; a
conversion error is logged (recorded as false) and the loop continues with the
remaining files. -/
def run_batch (convert : List String → Option String → Except String Unit)
    (password : Option String) : List (List String) → List (List String × Bool)
  | [] => []
  | f :: rest =>
    match convert f password with
    | Except.ok _ => (f, true) :: run_batch convert password rest
    | Except.error _ => (f, false) :: run_batch convert password rest

/-- Model of `process_individual` (convert.rs lines 181-239): collect the
files, return an empty success when none were collected (convert.rs line 202),
resolve one password for the whole batch, then run the per-file loop; the
result is the outcome trace. -/
def process_individual (entries : List WalkEntry)
    (include_set exclude_set : List (List Char)) (max_size : Option ℚ)
    (mode : PasswordMode) (preset : Option String) (rng : Nat → Fin 62)
    (manual : String × String) (now : LocalTime)
    (convert : List String → Option String → Except String Unit) :
    Except String (List (List String × Bool)) :=
  match collect_and_measure_files entries include_set exclude_set max_size false with
  | Except.error e => Except.error e
  | Except.ok (files, _) =>
    if files.length = 0 then Except.ok []
    else
      match generate_password mode preset rng manual now with
      | Except.error e => Except.error e
      | Except.ok password => Except.ok (run_batch convert password files)

/- ===== configuration validation (config.rs, cli.rs) ===== -/

/-- Conversion mode, from config.rs lines 42-46. -/
inductive Mode where
  | individual
  | compressed
deriving DecidableEq, Repr

/-- Resolved CLI configuration fields that the validator inspects.  The
existence of the input path is modelled as a boolean. -/
structure Cli where
  inputExists : Bool
  includes : List String
  excludes : Option (List String)
  mode : Mode
  layer : String
deriving DecidableEq, Repr

/-- Model of `validate_input_path` (config.rs lines 68-78). -/
def validate_input_path (inputExists : Bool) : Except String Unit :=
  if inputExists then Except.ok () else Except.error ("輸入路徑不存在")

/-- Model of `is_valid_pattern` (config.rs lines 80-83): nonempty and free of
the eight forbidden characters. -/
def is_valid_pattern (p : String) : Bool :=
  !p.isEmpty && !(p.toList.any fun c => ['/', '\\', ':', '?', '"', '<', '>', '|'].contains c)

/-- First-error scan of one pattern list, as in the loops of
`validate_file_patterns`. -/
def validate_patterns_list (label : String) : List String → Except String Unit
  | [] => Except.ok ()
  | p :: rest =>
    if is_valid_pattern p then validate_patterns_list label rest
    else Except.error (label ++ p)

/-- Model of `validate_file_patterns` (config.rs lines 85-99). -/
def validate_file_patterns (includes : List String) (excludes : Option (List String)) :
    Except String Unit :=
  match validate_patterns_list ("無效的包含模式: ") includes with
  | Except.error e => Except.error e
  | Except.ok _ =>
    match excludes with
    | none => Except.ok ()
    | some ex => validate_patterns_list ("無效的排除模式: ") ex

/-- Model of `validate_cli_args` (config.rs lines 56-66, identically
cli.rs lines 266-276): input must exist, patterns must be valid, and the
combination of compressed mode with the none layer is rejected. -/
def validate_cli_args (c : Cli) : Except String Unit :=
  match validate_input_path c.inputExists with
  | Except.error e => Except.error e
  | Except.ok _ =>
    match validate_file_patterns c.includes c.excludes with
    | Except.error e => Except.error e
    | Except.ok _ =>
      if c.mode = Mode.compressed ∧ c.layer = ("none") then
        Except.error ("壓縮模式下不支援 none 層數")
      else Except.ok ()

/-- Model of `process_cli_mode` (cli.rs lines 305-367): arguments are validated
before any conversion work; the conversion itself is abstracted as `run`,
returning the archives it produced. -/
def process_cli_mode (c : Cli) (run : Cli → Except String (List Data)) :
    Except String (List Data) :=
  match validate_cli_args c with
  | Except.error e => Except.error e
  | Except.ok _ => run c

/- ===== shared lemmas ===== -/

theorem chunksOf_join_aux (n : Nat) (hn : 0 < n) (f : α → Option β) :
    ∀ (m : Nat) (l : List α), l.length ≤ m →
      ((chunksOf n l).map fun c => c.filterMap f).flatten = l.filterMap f := by
  intro m
  induction m with
  | zero =>
    intro l hl
    have h0 : l = [] := List.eq_nil_of_length_eq_zero (Nat.le_zero.mp hl)
    subst h0
    unfold chunksOf
    simp
  | succ m ih =>
    intro l hl
    unfold chunksOf
    by_cases h : l.isEmpty = true ∨ n = 0
    · rw [dif_pos h]
      rcases h with h | h
      · have h0 : l = [] := by simpa using h
        subst h0
        simp
      · omega
    · rw [dif_neg h]
      push_neg at h
      have hl0 : l ≠ [] := by simpa using h.1
      have hpos : 0 < l.length := List.length_pos.mpr hl0
      have hrec := ih (l.drop n) (by rw [List.length_drop]; omega)
      simp only [List.map_cons, List.flatten_cons, hrec]
      conv_rhs => rw [← List.take_append_drop n l]
      rw [List.filterMap_append]

theorem chunksOf_join (n : Nat) (hn : 0 < n) (f : α → Option β) (l : List α) :
    ((chunksOf n l).map fun c => c.filterMap f).flatten = l.filterMap f :=
  chunksOf_join_aux n hn f l.length l le_rfl

/-- The collector in closed form: the batch split and the per-batch parallel
filter cancel into the in-order sequential filter of the traversal stream. -/
theorem collect_and_measure_files_eq (entries : List WalkEntry)
    (include_set exclude_set : List (List Char)) (max_size : Option ℚ)
    (measure_size : Bool) :
    collect_and_measure_files entries include_set exclude_set max_size measure_size =
      (if ((((entries.filter (filter_entry exclude_set)).filter fun e => e.isFile).filterMap
            (eligible_entry include_set exclude_set max_size measure_size)).map Prod.fst).isEmpty
       then Except.error ("無有效檔案可壓縮")
       else Except.ok
        (((((entries.filter (filter_entry exclude_set)).filter fun e => e.isFile).filterMap
            (eligible_entry include_set exclude_set max_size measure_size)).map Prod.fst),
         ((((entries.filter (filter_entry exclude_set)).filter fun e => e.isFile).filterMap
            (eligible_entry include_set exclude_set max_size measure_size)).map Prod.snd).sum)) := by
  simp only [collect_and_measure_files]
  rw [chunksOf_join 1000 (by omega)]

theorem run_batch_map_fst (convert : List String → Option String → Except String Unit)
    (password : Option String) (files : List (List String)) :
    (run_batch convert password files).map Prod.fst = files := by
  induction files with
  | nil => rfl
  | cons f rest ih =>
    unfold run_batch
    cases h : convert f password <;> simp [ih]

/- ===== claim theorems ===== -/

/-- C2: a file is selected if and only if its path string matches at least one
include pattern, matches no exclude pattern, and no size cap is configured or
its size in megabytes is at most the cap; and, with metadata available, a file
failing any conjunct yields an ok-false skip, never an error. -/
theorem file_selection_iff (path : String) (include_set exclude_set : List (List Char))
    (len : Nat) (max_size : Option ℚ) :
    (∃ b : Bool, is_file_valid path include_set exclude_set (Except.ok len) max_size
        = Except.ok b)
    ∧ (is_file_valid path include_set exclude_set (Except.ok len) max_size = Except.ok true ↔
        (regexSetMatch include_set path = true ∧ regexSetMatch exclude_set path = false ∧
          (max_size = none ∨ ∃ cap : ℚ, max_size = some cap ∧ (len : ℚ) / 1048576 ≤ cap))) := by
  unfold is_file_valid
  rcases max_size with _ | cap
  · cases hinc : regexSetMatch include_set path <;>
      cases hexc : regexSetMatch exclude_set path <;>
      simp [hinc, hexc]
  · cases hinc : regexSetMatch include_set path <;>
      cases hexc : regexSetMatch exclude_set path <;>
      by_cases hcap : ((len : ℚ) / 1048576) > cap <;>
      simp [hinc, hexc, hcap, not_lt, le_of_lt]
    · exact le_of_not_lt hcap

/-- C3 (code bug evaluation): over an input whose only file matches no include
pattern, not only the whole-tree run but also the per-file run fails with the
no-eligible-files error, because the collector raises it before
process_individual ever reaches its zero-file success branch. -/
theorem empty_selection_error_in_both_modes :
    process_individual [⟨[("root"), ("x.bin")], true, 5⟩] [['*', '.', 't', 'x', 't']] []
        none PasswordMode.none none (fun _ => 0) (("a"), ("a")) ⟨2026, 10, 12, 0, 0, 0⟩
        (fun _ _ => Except.ok ())
      = Except.error ("無有效檔案可壓縮")
    ∧ process_compressed_run [⟨[("root"), ("x.bin")], true, 5⟩] [['*', '.', 't', 'x', 't']] []
        none PasswordMode.none none (fun _ => 0) (("a"), ("a")) ⟨2026, 10, 12, 0, 0, 0⟩
        [("root")] (fun _ => []) ("deflated") ("double") AesMode.aes256
      = Except.error ("無有效檔案可壓縮") := by
  constructor
  · unfold process_individual
    rw [collect_and_measure_files_eq]
    rfl
  · unfold process_compressed_run
    rw [collect_and_measure_files_eq]
    rfl

/-- C4 counterexample: the collector hands the entry list over in traversal
order; with a traversal that yields b.txt before a.txt, the handed-off list is
not sorted by path-within-archive. -/
theorem collector_output_not_sorted :
    collect_and_measure_files [⟨[("b.txt")], true, 1⟩, ⟨[("a.txt")], true, 1⟩] [['*']] []
        none true
      = Except.ok ([[("b.txt")], [("a.txt")]], 2)
    ∧ ¬ List.Pairwise (fun a b : String => a.data < b.data)
        (([[("b.txt")], [("a.txt")]] : List (List String)).map joinComponents) := by
  constructor
  · rw [collect_and_measure_files_eq]
    rfl
  · decide

/-- C4 (amended): the list handed to the archive encoder is the in-order
filter of the traversal stream — the batched parallel eligibility filter
preserves traversal order, so the output is deterministic exactly when the
traversal stream is — but no sort by path-within-archive is applied. -/
theorem collector_preserves_traversal_order (entries : List WalkEntry)
    (include_set exclude_set : List (List Char)) (max_size : Option ℚ)
    (measure_size : Bool) (files : List (List String)) (total : Nat)
    (h : collect_and_measure_files entries include_set exclude_set max_size measure_size
        = Except.ok (files, total)) :
    files = (((entries.filter (filter_entry exclude_set)).filter fun e => e.isFile).filterMap
        (eligible_entry include_set exclude_set max_size measure_size)).map Prod.fst := by
  rw [collect_and_measure_files_eq] at h
  split at h
  · cases h
  · simp only [Except.ok.injEq, Prod.mk.injEq] at h
    exact h.1.symm

theorem collector_preserves_traversal_order_witness :
    ([[("a.txt")]] : List (List String)) =
      (((([⟨[("a.txt")], true, 1⟩] : List WalkEntry).filter (filter_entry [])).filter
          fun e => e.isFile).filterMap (eligible_entry [['*']] [] none true)).map Prod.fst :=
  collector_preserves_traversal_order [⟨[("a.txt")], true, 1⟩] [['*']] [] none true
    [[("a.txt")]] 1 (by rw [collect_and_measure_files_eq]; rfl)

/-- C6: the download artifact name is the root name unchanged for the none
layer, the root name with the zip suffix for the single layer, and the root
name with the outer-zip suffix for the double layer. -/
theorem download_name_by_layer (path : List String) :
    (get_file_name path ("none")).2 = (get_file_name path ("none")).1
    ∧ (get_file_name path ("single")).2 = (get_file_name path ("single")).1 ++ (".zip")
    ∧ (get_file_name path ("double")).2 = (get_file_name path ("double")).1 ++ ("_outer.zip") := by
  refine ⟨rfl, rfl, rfl⟩

/-- C8: in per-file mode, once the files are collected and the batch password
is resolved, the run always returns success, and the outcome trace covers
every collected file in order — a conversion failure on one file never stops
the remaining files from being processed. -/
theorem individual_failures_continue (entries : List WalkEntry)
    (include_set exclude_set : List (List Char)) (max_size : Option ℚ)
    (mode : PasswordMode) (preset : Option String) (rng : Nat → Fin 62)
    (manual : String × String) (now : LocalTime)
    (convert : List String → Option String → Except String Unit)
    (files : List (List String)) (total : Nat) (password : Option String)
    (hc : collect_and_measure_files entries include_set exclude_set max_size false
        = Except.ok (files, total))
    (hp : generate_password mode preset rng manual now = Except.ok password) :
    process_individual entries include_set exclude_set max_size mode preset rng manual now
        convert = Except.ok (run_batch convert password files)
    ∧ (run_batch convert password files).map Prod.fst = files := by
  refine ⟨?_, run_batch_map_fst convert password files⟩
  unfold process_individual
  rw [hc]
  dsimp only
  by_cases hf : files.length = 0
  · have h0 : files = [] := List.eq_nil_of_length_eq_zero hf
    subst h0
    simp [run_batch]
  · rw [if_neg hf, hp]

theorem individual_failures_continue_witness :
    process_individual [⟨[("a.txt")], true, 1⟩, ⟨[("b.txt")], true, 1⟩] [['*']] [] none
        PasswordMode.none none (fun _ => 0) (("x"), ("x")) ⟨2026, 1, 2, 3, 4, 5⟩
        (fun f _ => if f = [("a.txt")] then Except.error ("io") else Except.ok ())
      = Except.ok (run_batch
          (fun f _ => if f = [("a.txt")] then Except.error ("io") else Except.ok ()) none
          [[("a.txt")], [("b.txt")]])
    ∧ (run_batch (fun f _ => if f = [("a.txt")] then Except.error ("io") else Except.ok ())
        none [[("a.txt")], [("b.txt")]]).map Prod.fst = [[("a.txt")], [("b.txt")]] :=
  individual_failures_continue _ _ _ _ _ _ _ _ _ _ _ 0 none
    (by rw [collect_and_measure_files_eq]; rfl) rfl

/-- C9: the combination of whole-tree compressed mode with the none layer plan
never passes argument validation, and the validated CLI pipeline therefore
errors out before any conversion work, whatever the conversion backend would
have produced — no archive bytes are produced for such a configuration. -/
theorem compressed_none_layer_rejected (c : Cli)
    (hm : c.mode = Mode.compressed) (hl : c.layer = ("none")) :
    (∃ e, validate_cli_args c = Except.error e)
    ∧ ∀ run : Cli → Except String (List Data), ∃ e, process_cli_mode c run = Except.error e := by
  have h1 : ∃ e, validate_cli_args c = Except.error e := by
    unfold validate_cli_args
    rcases hv : validate_input_path c.inputExists with e | u
    · exact ⟨e, rfl⟩
    · rcases hp : validate_file_patterns c.includes c.excludes with e | u
      · exact ⟨e, rfl⟩
      · refine ⟨("壓縮模式下不支援 none 層數"), ?_⟩
        dsimp only
        rw [if_pos ⟨hm, hl⟩]
  refine ⟨h1, ?_⟩
  intro run
  obtain ⟨e, he⟩ := h1
  refine ⟨e, ?_⟩
  unfold process_cli_mode
  rw [he]

theorem compressed_none_layer_rejected_witness :
    ∃ e, process_cli_mode ⟨true, [("*")], none, Mode.compressed, ("none")⟩
        (fun _ => Except.ok []) = Except.error e :=
  (compressed_none_layer_rejected ⟨true, [("*")], none, Mode.compressed, ("none")⟩ rfl rfl).2 _

/- ===== path lemmas and C5 ===== -/

theorem commonLen_append (xs ys : List String) : commonLen (xs ++ ys) xs = xs.length := by
  induction xs with
  | nil => cases ys <;> rfl
  | cons x xs ih => simp [commonLen, ih]

theorem trimDotSlash_eq_self (l : List Char) (h : ∀ rest, l ≠ '.' :: '/' :: rest) :
    trimDotSlash l = l := by
  rw [trimDotSlash.eq_def]
  split
  · rename_i rest
    exact absurd rfl (h rest)
  · rfl

theorem joinComponents_cons_shape (root : String) (rest : List String) :
    (joinComponents (root :: rest)).data = root.data
      ∨ ∃ t, (joinComponents (root :: rest)).data = root.data ++ '/' :: t := by
  cases rest with
  | nil => exact Or.inl rfl
  | cons r rs =>
    refine Or.inr ⟨(joinComponents (r :: rs)).data, ?_⟩
    show (root ++ ("/") ++ joinComponents (r :: rs)).data = _
    cases root with
    | mk d =>
      cases hj : joinComponents (r :: rs) with
      | mk d2 => simp [String.instAppend, String.append]

/-- C5 (amended): the path-within-archive is computed relative to the parent
of the input root — the input root's final component becomes the leading
segment of every member name — joined with forward slashes; for any walk-shaped
file path (a descendant of the input root whose components are ordinary names)
it is never empty and never contains a parent-directory segment. -/
theorem member_name_relative_to_parent (init : List String) (root : String)
    (rest : List String) (h0 : root.data ≠ []) (h1 : root.data ≠ ['.'])
    (h2 : ('/') ∉ root.data) (h3 : (("..") : String) ∉ root :: rest) :
    diff_paths (init ++ root :: rest) (parent_or_self (init ++ [root])) = root :: rest
    ∧ relative_path_str (init ++ root :: rest) (init ++ [root])
        = joinComponents (root :: rest)
    ∧ relative_path_str (init ++ root :: rest) (init ++ [root]) ≠ ("")
    ∧ ∀ seg ∈ diff_paths (init ++ root :: rest) (parent_or_self (init ++ [root])),
        seg ≠ ("..") := by
  have hparent : parent_or_self (init ++ [root]) = init := by
    unfold parent_or_self
    rw [if_neg (by simp)]
    simp
  have hdiff : diff_paths (init ++ root :: rest) init = root :: rest := by
    unfold diff_paths
    rw [commonLen_append init (root :: rest)]
    simp [List.drop_left]
  have htrim : trimDotSlash (joinComponents (root :: rest)).data
      = (joinComponents (root :: rest)).data := by
    refine trimDotSlash_eq_self _ ?_
    intro r heq
    rcases joinComponents_cons_shape root rest with hs | ⟨t, hs⟩
    · rw [hs] at heq
      rcases hd : root.data with _ | ⟨c1, tail⟩
      · exact h0 hd
      · rw [hd] at heq
        cases tail with
        | nil =>
          simp at heq
        | cons c2 t2 =>
          simp at heq
          exact h2 (by rw [hd, heq.1, heq.2.1]; simp)
    · rw [hs] at heq
      rcases hd : root.data with _ | ⟨c1, tail⟩
      · exact h0 hd
      · rw [hd] at heq
        cases tail with
        | nil =>
          simp at heq
          exact h1 (by rw [hd, heq.1])
        | cons c2 t2 =>
          simp at heq
          exact h2 (by rw [hd, heq.1, heq.2.1]; simp)
  have hjoin : relative_path_str (init ++ root :: rest) (init ++ [root])
      = joinComponents (root :: rest) := by
    unfold relative_path_str
    rw [hparent, hdiff, htrim]
  refine ⟨by rw [hparent]; exact hdiff, hjoin, ?_, ?_⟩
  · rw [hjoin]
    intro heq
    have hdata : (joinComponents (root :: rest)).data = [] := by
      rw [heq]
    rcases joinComponents_cons_shape root rest with hs | ⟨t, hs⟩
    · exact h0 (by rw [← hs, hdata])
    · rw [hs] at hdata
      rcases hd : root.data with _ | ⟨c1, tail⟩
      · exact h0 hd
      · rw [hd] at hdata
        simp at hdata
  · rw [hparent, hdiff]
    intro seg hseg heq
    exact h3 (heq ▸ hseg)

theorem member_name_relative_to_parent_witness :
    relative_path_str [("home"), ("proj"), ("a.txt")] [("home"), ("proj")]
        = joinComponents [("proj"), ("a.txt")]
    ∧ relative_path_str [("home"), ("proj"), ("a.txt")] [("home"), ("proj")] ≠ ("") :=
  ⟨(member_name_relative_to_parent [("home")] ("proj") [("a.txt")]
      (by decide) (by decide) (by decide) (by decide)).2.1,
   (member_name_relative_to_parent [("home")] ("proj") [("a.txt")]
      (by decide) (by decide) (by decide) (by decide)).2.2.1⟩

/-- C5 counterexample: for the input root a/b and the collected file
a/b/c.txt, the member name produced by compress_files is b/c.txt, not the
name c.txt that relativizing against the input root itself would give — the
member name is anchored at the parent of the input root. -/
theorem member_name_not_relative_to_root :
    relative_path_str [("a"), ("b"), ("c.txt")] [("a"), ("b")] = ("b/c.txt")
    ∧ relative_path_str [("a"), ("b"), ("c.txt")] [("a"), ("b")]
        ≠ joinComponents ([("a"), ("b"), ("c.txt")].drop ([("a"), ("b")].length)) := by
  constructor
  · rfl
  · decide

/- ===== member lemmas and C1, C10 ===== -/

theorem allMembersList_map_raw {α : Type} (l : List α) (g : α → String)
    (d : α → List Nat) (enc : α → Option (String × AesMode)) (mth : α → Method) :
    allMembersList (l.map fun a => (g a, Data.raw (d a), enc a, mth a))
      = l.map fun a => (g a, Data.raw (d a), enc a, mth a) := by
  induction l with
  | nil => rfl
  | cons a rest ih => simp [allMembersList, allMembers, ih]

theorem allMembers_create_zip (d : Data) (n : String) (layer : String)
    (pwd : Option String) (aes : AesMode) :
    allMembers (create_zip d n layer pwd aes)
      = if layer = ("double") then
          (n ++ ("_outer.zip"), d, pwd.map fun p => (p, aes), Method.stored) :: allMembers d
        else if layer = ("single") then
          (n ++ (".zip"), d, pwd.map fun p => (p, aes), Method.stored) :: allMembers d
        else allMembers d := by
  unfold create_zip
  by_cases h1 : layer = ("double")
  · simp [h1, allMembers, allMembersList]
  · by_cases h2 : layer = ("single") <;> simp [h1, h2, allMembers, allMembersList]

theorem allMembers_compress_files (files : List (List String)) (inputPath : List String)
    (content : List String → List Nat) (options : Method) (password : Option String)
    (aes : AesMode) :
    allMembers (compress_files files inputPath content options password aes)
      = (file_entries files inputPath).map fun e =>
          (e.1, Data.raw (content e.2), password.map fun pwd => (pwd, aes),
            if password.isSome then Method.stored else options) :=
  allMembersList_map_raw (file_entries files inputPath) (fun e => e.1)
    (fun e => content e.2) (fun _ => password.map fun pwd => (pwd, aes))
    (fun _ => if password.isSome then Method.stored else options)

theorem allMembers_compress_file_content (data : List Nat) (file_name : String)
    (cl : String) (password : Option String) (aes : AesMode) :
    allMembers (compress_file_content data file_name cl password aes)
      = [(file_name, Data.raw data, password.map fun pwd => (pwd, aes), Method.stored)] := by
  simp [compress_file_content, allMembers, allMembersList]

/-- Every member of every archive built by the whole-tree pipeline is Stored
and carries exactly the resolved password paired with the configured key
length. -/
theorem members_process_compressed (files : List (List String)) (inputPath : List String)
    (content : List String → List Nat) (cl : String) (layer : String)
    (password : Option String) (aes : AesMode) :
    ∀ m ∈ allMembers (process_compressed_archive files inputPath content cl layer password aes),
      m.2.2.2 = Method.stored ∧ m.2.2.1 = password.map fun p => (p, aes) := by
  intro m hm
  unfold process_compressed_archive finalize_compression create_inner_zip at hm
  dsimp only at hm
  by_cases hd : layer = ("double")
  · rw [if_pos hd] at hm
    rw [allMembers_create_zip, if_pos hd, allMembers_compress_files] at hm
    rcases List.mem_cons.mp hm with rfl | hm2
    · exact ⟨rfl, rfl⟩
    · obtain ⟨e, _, rfl⟩ := List.mem_map.mp hm2
      cases password <;> exact ⟨rfl, rfl⟩
  · rw [if_neg hd] at hm
    rw [allMembers_compress_files] at hm
    obtain ⟨e, _, rfl⟩ := List.mem_map.mp hm
    cases password <;> exact ⟨rfl, rfl⟩

/-- Every member of every archive built by the per-file pipeline is Stored and
carries exactly the resolved password paired with the configured key
length. -/
theorem members_compress_single_file (data : List Nat) (file_name : String)
    (compress : Bool) (cl : String) (password : Option String) (aes : AesMode)
    (layer : String) :
    ∀ m ∈ allMembers (compress_single_file data file_name compress cl password aes layer),
      m.2.2.2 = Method.stored ∧ m.2.2.1 = password.map fun p => (p, aes) := by
  intro m hm
  unfold compress_single_file at hm
  by_cases hs : layer = ("single")
  · rw [if_pos hs] at hm
    cases password with
    | some pwd =>
      simp only [allMembers, allMembersList, List.append_nil] at hm
      rcases List.mem_cons.mp hm with rfl | hm2
      · exact ⟨rfl, rfl⟩
      · cases hm2
    | none =>
      by_cases hc : compress
      · rw [if_pos hc] at hm
        simp only [create_zip_buffer, allMembers, allMembersList, List.append_nil] at hm
        rcases List.mem_cons.mp hm with rfl | hm2
        · exact ⟨rfl, rfl⟩
        · cases hm2
      · rw [if_neg hc] at hm
        cases hm
  · rw [if_neg hs] at hm
    rw [allMembers_create_zip] at hm
    by_cases hcn : compress ∧ layer ≠ ("none")
    · rw [if_pos hcn, allMembers_compress_file_content] at hm
      by_cases hd : layer = ("double")
      · rw [if_pos hd] at hm
        rcases List.mem_cons.mp hm with rfl | hm2
        · exact ⟨rfl, rfl⟩
        · rcases List.mem_cons.mp hm2 with rfl | hm3
          · exact ⟨rfl, rfl⟩
          · cases hm3
      · rw [if_neg hd, if_neg hs] at hm
        rcases List.mem_cons.mp hm with rfl | hm2
        · exact ⟨rfl, rfl⟩
        · cases hm2
    · rw [if_neg hcn] at hm
      by_cases hd : layer = ("double")
      · rw [if_pos hd] at hm
        rcases List.mem_cons.mp hm with rfl | hm2
        · exact ⟨rfl, rfl⟩
        · cases hm2
      · rw [if_neg hd, if_neg hs] at hm
        cases hm

/-- C1: building a double-layer archive applies one same secret to both
layers — every member of the inner archive and the single outer member (root
name plus the outer suffix) is encrypted with the identical password and AES
key length — so the supplied password unlocks the outer member, yielding the
inner archive, and the same password once more recovers every original byte
buffer. -/
theorem double_layer_uses_one_secret (files : List (List String)) (inputPath : List String)
    (content : List String → List Nat) (compression_level : String) (s : String)
    (aes : AesMode) :
    process_compressed_archive files inputPath content compression_level ("double") (some s) aes
      = Data.zip [((get_file_name inputPath ("double")).1 ++ ("_outer.zip"),
          Data.zip ((file_entries files inputPath).map fun e =>
            (e.1, Data.raw (content e.2), some (s, aes), Method.stored)),
          some (s, aes), Method.stored)]
    ∧ extract_member (some s)
        ((get_file_name inputPath ("double")).1 ++ ("_outer.zip"),
          Data.zip ((file_entries files inputPath).map fun e =>
            (e.1, Data.raw (content e.2), some (s, aes), Method.stored)),
          some (s, aes), Method.stored)
      = some (Data.zip ((file_entries files inputPath).map fun e =>
          (e.1, Data.raw (content e.2), some (s, aes), Method.stored)))
    ∧ ∀ e ∈ file_entries files inputPath,
        extract_member (some s)
            (e.1, Data.raw (content e.2), some (s, aes), Method.stored)
          = some (Data.raw (content e.2)) := by
  refine ⟨rfl, ?_, ?_⟩
  · simp [extract_member]
  · intro e _
    simp [extract_member]

theorem double_layer_uses_one_secret_witness :
    extract_member (some ("abc123"))
        ((("f.txt") : String), Data.raw [1, 2], some ((("abc123") : String), AesMode.aes256),
          Method.stored)
      = some (Data.raw [1, 2]) :=
  (double_layer_uses_one_secret [[("f.txt")]] [("root")] (fun _ => [1, 2]) ("deflated")
      ("abc123") AesMode.aes256).2.2 ((("f.txt") : String), [("f.txt")]) (by decide)

/-- C10: every member written by the archive-construction routines — at every
nesting depth, in both the whole-tree and the per-file pipeline — uses the
Stored compression method; with a secret present every member carries that
secret with the configured key length; and the compression_level
configuration value has no effect on either pipeline's output. -/
theorem members_stored_level_ignored (files : List (List String)) (inputPath : List String)
    (content : List String → List Nat) (cl cl2 : String) (layer : String)
    (password : Option String) (aes : AesMode) (data : List Nat) (file_name : String)
    (compress : Bool) :
    (∀ m ∈ allMembers (process_compressed_archive files inputPath content cl layer password aes),
        m.2.2.2 = Method.stored)
    ∧ (∀ m ∈ allMembers (compress_single_file data file_name compress cl password aes layer),
        m.2.2.2 = Method.stored)
    ∧ (∀ s, password = some s →
        ∀ m ∈ allMembers (process_compressed_archive files inputPath content cl layer password aes),
          m.2.2.1 = some (s, aes))
    ∧ (∀ s, password = some s →
        ∀ m ∈ allMembers (compress_single_file data file_name compress cl password aes layer),
          m.2.2.1 = some (s, aes))
    ∧ process_compressed_archive files inputPath content cl layer password aes
        = process_compressed_archive files inputPath content cl2 layer password aes
    ∧ compress_single_file data file_name compress cl password aes layer
        = compress_single_file data file_name compress cl2 password aes layer := by
  refine ⟨?_, ?_, ?_, ?_, rfl, rfl⟩
  · intro m hm
    exact (members_process_compressed files inputPath content cl layer password aes m hm).1
  · intro m hm
    exact (members_compress_single_file data file_name compress cl password aes layer m hm).1
  · intro s hs m hm
    have h := (members_process_compressed files inputPath content cl layer password aes m hm).2
    rw [hs] at h
    simpa using h
  · intro s hs m hm
    have h := (members_compress_single_file data file_name compress cl password aes layer m hm).2
    rw [hs] at h
    simpa using h

theorem members_stored_level_ignored_witness :
    ((("root_outer.zip") : String),
      compress_files [[("f.txt")]] [("root")] (fun _ => [7]) Method.stored (some ("pw"))
        AesMode.aes128,
      some ((("pw") : String), AesMode.aes128), Method.stored).2.2.2 = Method.stored :=
  (members_stored_level_ignored [[("f.txt")]] [("root")] (fun _ => [7]) ("deflated")
      ("stored") ("double") (some ("pw")) AesMode.aes128 [7] ("f.txt") true).1 _
    (by
      unfold process_compressed_archive finalize_compression create_inner_zip
      dsimp only
      rw [if_pos rfl, allMembers_create_zip, if_pos rfl]
      exact List.mem_cons_self _ _)

/- ===== password lemmas and C7 ===== -/

theorem digitChar_isDigit (n : Nat) : (digitChar n).isDigit = true := by
  have h : n % 10 < 10 := Nat.mod_lt _ (by omega)
  have hall : ∀ r : Fin 10, (Char.ofNat (48 + r.val)).isDigit = true := by decide
  exact hall ⟨n % 10, h⟩

theorem alphanumeric_char_isAlphanum (i : Fin 62) :
    (alphanumeric_chars.get (Fin.cast alphanumeric_chars_length.symm i)).isAlphanum
      = true := by
  revert i
  decide

/-- C7: random mode always succeeds with a 16-character alphanumeric secret,
none mode always succeeds with no secret, and timestamp mode always succeeds
with the current local time formatted as exactly 14 decimal digits of year,
month, day, hour, minute and second. -/
theorem password_mode_contract (preset : Option String) (rng : Nat → Fin 62)
    (manual : String × String) (t : LocalTime)
    (hy : t.year < 10000) (hmo : t.month < 100) (hd : t.day < 100)
    (hh : t.hour < 100) (hmi : t.minute < 100) (hs : t.second < 100) :
    (∃ p : String, generate_password PasswordMode.random preset rng manual t
        = Except.ok (some p) ∧ p.length = 16 ∧ p.data.all Char.isAlphanum = true)
    ∧ generate_password PasswordMode.none preset rng manual t = Except.ok none
    ∧ (∃ p : String, generate_password PasswordMode.timestamp preset rng manual t
        = Except.ok (some p) ∧ p = format_timestamp t ∧ p.length = 14
        ∧ p.data.all Char.isDigit = true) := by
  refine ⟨⟨generate_random_password 16 rng, rfl, rfl, ?_⟩, rfl,
    ⟨format_timestamp t, rfl, rfl, rfl, ?_⟩⟩
  · show (((List.range 16).map fun k =>
      alphanumeric_chars.get (Fin.cast alphanumeric_chars_length.symm (rng k))).all
        Char.isAlphanum) = true
    rw [List.all_eq_true]
    intro c hc
    obtain ⟨k, _, rfl⟩ := List.mem_map.mp hc
    exact alphanumeric_char_isAlphanum (rng k)
  · show ((pad4 t.year ++ pad2 t.month ++ pad2 t.day ++ pad2 t.hour ++ pad2 t.minute ++
      pad2 t.second).all Char.isDigit) = true
    simp [List.all_append, pad4, pad2, digitChar_isDigit]

theorem password_mode_contract_witness :
    (∃ p : String, generate_password PasswordMode.random none (fun _ => 0) ((""), (""))
        ⟨2026, 10, 12, 3, 4, 5⟩ = Except.ok (some p) ∧ p.length = 16
        ∧ p.data.all Char.isAlphanum = true)
    ∧ generate_password PasswordMode.none none (fun _ => 0) ((""), (""))
        ⟨2026, 10, 12, 3, 4, 5⟩ = Except.ok none
    ∧ (∃ p : String, generate_password PasswordMode.timestamp none (fun _ => 0) ((""), (""))
        ⟨2026, 10, 12, 3, 4, 5⟩ = Except.ok (some p) ∧ p = format_timestamp ⟨2026, 10, 12, 3, 4, 5⟩
        ∧ p.length = 14 ∧ p.data.all Char.isDigit = true) :=
  password_mode_contract none (fun _ => 0) ((""), ("")) ⟨2026, 10, 12, 3, 4, 5⟩
    (by decide) (by decide) (by decide) (by decide) (by decide) (by decide)

end FileToHtml
